import Mathlib

/-!
Verification development for the audit collector of openGauss
(`src/gausskernel/process/postmaster/pgaudit.cpp`).

The definitions below are a shallow embedding of the collector's data model
and operations: on-disk audit records, the audit index table (a ring of file
slots), the pipe framing codec, the retention loop, the rotation controller,
and the query/delete engines.  Machine integers are modelled as `Nat`/`Int`
(sizes and counts are unsigned, `pg_time_t` is a signed 64-bit integer);
I/O failures (unlink/seek/write errors) are assumed absent, and a file is
modelled as the list of records it contains.
-/

namespace PgAudit

/-- `AUDIT_TUPLE_NORMAL`: flags value of a live record. -/
def AUDIT_TUPLE_NORMAL : Nat := 1

/-- `AUDIT_TUPLE_DEAD`: flags value of a tombstoned record. -/
def AUDIT_TUPLE_DEAD : Nat := 2

/-- `PGAUDIT_QUERY_COLS`: the declared field count of every record. -/
def PGAUDIT_QUERY_COLS : Nat := 13

/-- The fixed on-disk audit message header `AuditMsgHdr`.
`sig0, sig1` are the two signature bytes (`'A'` = 65, `'U'` = 85). -/
structure AuditMsgHdr where
  sig0 : Nat
  sig1 : Nat
  version : Nat
  fields : Nat
  flags : Nat
  time : Int
  size : Nat
deriving DecidableEq, Repr

/-- One persisted audit record: header, the two enum fields of `AuditData`
(`type` and `result`, stored as 32-bit integers on disk), and the raw bytes
of the variable string table. -/
structure AuditRecord where
  hdr : AuditMsgHdr
  atype : Int
  aresult : Int
  varstr : List Nat
deriving DecidableEq, Repr

/-- The header-validity test performed by both `pgaudit_query_file` and
`pgaudit_delete_file` before processing a record:
`signature == "AU" && version == 0 && fields == PGAUDIT_QUERY_COLS`. -/
def headerValid (h : AuditMsgHdr) : Bool :=
  h.sig0 == 65 && h.sig1 == 85 && h.version == 0 && h.fields == PGAUDIT_QUERY_COLS

/-- `AuditTypeDescs`: the description table for audit types (39 entries). -/
def AuditTypeDescs : List String :=
  ["unknown", "login_success", "login_failed", "user_logout", "system_start",
   "system_stop", "system_recover", "system_switch", "lock_user", "unlock_user",
   "grant_role", "revoke_role", "user_violation", "ddl_database", "ddl_directory",
   "ddl_tablespace", "ddl_schema", "ddl_user", "ddl_table", "ddl_index",
   "ddl_view", "ddl_trigger", "ddl_function", "ddl_resourcepool", "ddl_workload",
   "ddl_serverforhadoop", "ddl_datasource", "ddl_nodegroup", "ddl_rowlevelsecurity",
   "ddl_synonym", "ddl_type", "ddl_textsearch", "dml_action", "dml_action_select",
   "internal_event", "function_exec", "copy_to", "copy_from", "set_parameter"]

/-- `AuditTypeNum = sizeof(AuditTypeDescs) / sizeof(char*)`. -/
def AuditTypeNum : Nat := AuditTypeDescs.length

/-- `AuditResultDescs`: the description table for audit results. -/
def AuditResultDescs : List String := ["unknown", "ok", "failed"]

/-- `AuditResultNum`. -/
def AuditResultNum : Nat := AuditResultDescs.length

/-- The `AuditTypeDesc` macro: guarded table lookup, falling back to entry 0
(`"unknown"`) for any out-of-range value. -/
def AuditTypeDesc (t : Int) : String :=
  if 0 < t ∧ t < (AuditTypeNum : Int) then AuditTypeDescs.getD t.toNat "unknown"
  else AuditTypeDescs.getD 0 "unknown"

/-- The `AuditResultDesc` macro: guarded table lookup, falling back to entry 0. -/
def AuditResultDesc (t : Int) : String :=
  if 0 < t ∧ t < (AuditResultNum : Int) then AuditResultDescs.getD t.toNat "unknown"
  else AuditResultDescs.getD 0 "unknown"

/-- One output tuple of the query engine, restricted to the columns the
claims are about: the timestamp column and the two description columns. -/
structure Row where
  rtime : Int
  typeDesc : String
  resultDesc : String
deriving DecidableEq, Repr

/-- The row built by `pgaudit_query_file` for one record. -/
def mkRow (r : AuditRecord) : Row :=
  { rtime := r.hdr.time, typeDesc := AuditTypeDesc r.atype,
    resultDesc := AuditResultDesc r.aresult }

/-- The emission test of `pgaudit_query_file`:
`datetime >= begtime && datetime < endtime && header.flags == AUDIT_TUPLE_NORMAL`
(`time_t_to_timestamptz` is strictly monotone, so timestamps are compared on
the record's own time scale). -/
def queryEmit (begtime endtime : Int) (h : AuditMsgHdr) : Bool :=
  begtime ≤ h.time && h.time < endtime && h.flags == AUDIT_TUPLE_NORMAL

/-- `pgaudit_query_file`: scan a file record by record; stop at the first
invalid header (prior rows are retained); emit a row for every record whose
time lies in `[begtime, endtime)` and whose flags are live. -/
def pgaudit_query_file (begtime endtime : Int) : List AuditRecord → List Row
  | [] => []
  | r :: rs =>
    if headerValid r.hdr then
      (if queryEmit begtime endtime r.hdr then [mkRow r] else []) ++
        pgaudit_query_file begtime endtime rs
    else []

/-- The in-place tombstone step of `pgaudit_delete_file` on one header:
if the record's time lies in `[begtime, endtime)` and it is live, its flags
are rewritten to `AUDIT_TUPLE_DEAD`; nothing else changes. -/
def deleteHdr (begtime endtime : Int) (h : AuditMsgHdr) : AuditMsgHdr :=
  if begtime ≤ h.time ∧ h.time < endtime ∧ h.flags = AUDIT_TUPLE_NORMAL then
    { h with flags := AUDIT_TUPLE_DEAD }
  else h

/-- `pgaudit_delete_file`: scan a file record by record; stop at the first
invalid header, leaving the remainder untouched; tombstone every matching
live record in place (the record body and size are untouched). -/
def pgaudit_delete_file (begtime endtime : Int) : List AuditRecord → List AuditRecord
  | [] => []
  | r :: rs =>
    if headerValid r.hdr then
      { r with hdr := deleteHdr begtime endtime r.hdr } ::
        pgaudit_delete_file begtime endtime rs
    else r :: rs

/-- The byte length of a file, as driven by each record's `size` header field
(every scan skips `size` bytes per record, and tombstoning rewrites the header
in place without changing `size`). -/
def fileLength (recs : List AuditRecord) : Nat :=
  (recs.map (fun r => r.hdr.size)).sum

lemma pgaudit_query_file_cons (begtime endtime : Int) (r : AuditRecord)
    (rs : List AuditRecord) :
    pgaudit_query_file begtime endtime (r :: rs) =
      if headerValid r.hdr then
        (if queryEmit begtime endtime r.hdr then [mkRow r] else []) ++
          pgaudit_query_file begtime endtime rs
      else [] := rfl

lemma pgaudit_delete_file_cons (begtime endtime : Int) (r : AuditRecord)
    (rs : List AuditRecord) :
    pgaudit_delete_file begtime endtime (r :: rs) =
      if headerValid r.hdr then
        { r with hdr := deleteHdr begtime endtime r.hdr } ::
          pgaudit_delete_file begtime endtime rs
      else r :: rs := rfl

lemma headerValid_deleteHdr (begtime endtime : Int) (h : AuditMsgHdr) :
    headerValid (deleteHdr begtime endtime h) = headerValid h := by
  unfold deleteHdr headerValid
  split <;> rfl

lemma deleteHdr_idem (begtime endtime : Int) (h : AuditMsgHdr) :
    deleteHdr begtime endtime (deleteHdr begtime endtime h) =
      deleteHdr begtime endtime h := by
  unfold deleteHdr
  by_cases hc : begtime ≤ h.time ∧ h.time < endtime ∧ h.flags = AUDIT_TUPLE_NORMAL
  · rw [if_pos hc]
    have : ¬ (begtime ≤ h.time ∧ h.time < endtime ∧
        AUDIT_TUPLE_DEAD = AUDIT_TUPLE_NORMAL) := by
      intro hx
      exact absurd hx.2.2 (by decide)
    exact if_neg this
  · rw [if_neg hc, if_neg hc]

lemma deleteHdr_size (begtime endtime : Int) (h : AuditMsgHdr) :
    (deleteHdr begtime endtime h).size = h.size := by
  unfold deleteHdr
  split <;> rfl

/-- C4: tombstoning is idempotent and never changes the file's length:
applying `pgaudit_delete_file` over the same range twice leaves the file
identical to the state after the first application, and every application
preserves the record count and the byte length of the file. -/
theorem delete_file_idempotent_and_length_preserving
    (begtime endtime : Int) (recs : List AuditRecord) :
    pgaudit_delete_file begtime endtime (pgaudit_delete_file begtime endtime recs) =
      pgaudit_delete_file begtime endtime recs ∧
    (pgaudit_delete_file begtime endtime recs).length = recs.length ∧
    fileLength (pgaudit_delete_file begtime endtime recs) = fileLength recs := by
  induction recs with
  | nil => exact ⟨rfl, rfl, rfl⟩
  | cons r rs ih =>
    by_cases hv : headerValid r.hdr
    · rw [pgaudit_delete_file_cons, if_pos hv]
      have hv' : headerValid ({ r with hdr := deleteHdr begtime endtime r.hdr }
          : AuditRecord).hdr = true := by
        show headerValid (deleteHdr begtime endtime r.hdr) = true
        rw [headerValid_deleteHdr]; exact hv
      refine ⟨?_, ?_, ?_⟩
      · rw [pgaudit_delete_file_cons, if_pos hv', ih.1]
        simp [deleteHdr_idem]
      · simp [ih.2.1]
      · unfold fileLength
        simp only [List.map_cons, List.sum_cons]
        have h2 : (deleteHdr begtime endtime r.hdr).size = r.hdr.size :=
          deleteHdr_size begtime endtime r.hdr
        have h3 := ih.2.2
        unfold fileLength at h3
        simp only [h2, h3]
    · rw [pgaudit_delete_file_cons, if_neg hv]
      exact ⟨by rw [pgaudit_delete_file_cons, if_neg hv], rfl, rfl⟩

/-- C5: query closure.  (a) For a file whose headers are all well formed, the
query engine emits exactly the rows of the records whose time lies in the
half-open range `[begtime, endtime)` and whose flags equal the live value;
(b) in particular, querying the half-open range `[t, t+1)` where `t` is a
record's own timestamp returns the record's row iff the record is live
(tombstoned records are never returned). -/
theorem query_file_closure :
    (∀ (begtime endtime : Int) (recs : List AuditRecord),
      (∀ r ∈ recs, headerValid r.hdr = true) →
      pgaudit_query_file begtime endtime recs =
        (recs.filter (fun r => queryEmit begtime endtime r.hdr)).map mkRow) ∧
    (∀ (r : AuditRecord), headerValid r.hdr = true →
      (pgaudit_query_file r.hdr.time (r.hdr.time + 1) [r] = [mkRow r] ↔
        r.hdr.flags = AUDIT_TUPLE_NORMAL)) := by
  constructor
  · intro begtime endtime recs hval
    induction recs with
    | nil => rfl
    | cons r rs ih =>
      have hv : headerValid r.hdr = true := hval r (by simp)
      have ih' := ih (fun x hx => hval x (by simp [hx]))
      rw [pgaudit_query_file_cons, if_pos hv, ih']
      by_cases he : queryEmit begtime endtime r.hdr
      · rw [if_pos he]
        simp [List.filter_cons, he]
      · rw [if_neg he]
        simp only [Bool.not_eq_true] at he
        simp [List.filter_cons, he]
  · intro r hv
    rw [pgaudit_query_file_cons, if_pos hv]
    by_cases hf : r.hdr.flags = AUDIT_TUPLE_NORMAL
    · have he : queryEmit r.hdr.time (r.hdr.time + 1) r.hdr = true := by
        unfold queryEmit
        rw [hf]
        simp only [Bool.and_eq_true, decide_eq_true_eq, beq_self_eq_true,
          and_true]
        omega
      rw [if_pos he]
      constructor
      · intro _; exact hf
      · intro _; rfl
    · have he : queryEmit r.hdr.time (r.hdr.time + 1) r.hdr = false := by
        unfold queryEmit
        simp only [Bool.and_eq_false_iff, beq_eq_false_iff_ne, ne_eq]
        right
        exact hf
      rw [if_neg (by simp [he])]
      constructor
      · intro hx
        exact absurd hx (by simp [pgaudit_query_file])
      · intro hx
        exact absurd hx hf

/-- Witness for C5 at a concrete record: a live record with time 5 queried
over `[0, 10)` (part a) and over `[5, 6)` (part b). -/
theorem query_file_closure_witness :
    pgaudit_query_file 0 10
        [({ hdr := ⟨65, 85, 0, 13, 1, 5, 40⟩, atype := 1, aresult := 1,
            varstr := [] } : AuditRecord)] =
      ([({ hdr := ⟨65, 85, 0, 13, 1, 5, 40⟩, atype := 1, aresult := 1,
           varstr := [] } : AuditRecord)].filter
          (fun r => queryEmit 0 10 r.hdr)).map mkRow ∧
    (pgaudit_query_file 5 (5 + 1)
        [({ hdr := ⟨65, 85, 0, 13, 1, 5, 40⟩, atype := 1, aresult := 1,
            varstr := [] } : AuditRecord)] =
      [mkRow ({ hdr := ⟨65, 85, 0, 13, 1, 5, 40⟩, atype := 1, aresult := 1,
                varstr := [] } : AuditRecord)] ↔
      ({ hdr := ⟨65, 85, 0, 13, 1, 5, 40⟩, atype := 1, aresult := 1,
         varstr := [] } : AuditRecord).hdr.flags = AUDIT_TUPLE_NORMAL) := by
  constructor
  · exact query_file_closure.1 0 10 _ (by decide)
  · exact query_file_closure.2
      ({ hdr := ⟨65, 85, 0, 13, 1, 5, 40⟩, atype := 1, aresult := 1,
         varstr := [] } : AuditRecord) (by decide)

lemma getD_mem_of_lt (d : String) :
    ∀ (l : List String) (n : Nat), n < l.length → l.getD n d ∈ l := by
  intro l
  induction l with
  | nil => intro n h; simp at h
  | cons x xs ih =>
    intro n h
    cases n with
    | zero => simp [List.getD]
    | succ m =>
      have : xs.getD m d ∈ xs := ih m (by simpa using h)
      simp only [List.getD_cons_succ]
      exact List.mem_cons_of_mem x this

/-- C10: a record whose `type` or `result` value lies outside the known
enumeration range is still emitted by the query scan (emission depends only
on time and flags); its description columns substitute `"unknown"`, and the
description lookups always return an element of the fixed tables (never an
out-of-bounds access). -/
theorem query_unknown_enum_safe (r : AuditRecord) (begtime endtime : Int)
    (hv : headerValid r.hdr = true)
    (ht : begtime ≤ r.hdr.time) (ht2 : r.hdr.time < endtime)
    (hf : r.hdr.flags = AUDIT_TUPLE_NORMAL) :
    pgaudit_query_file begtime endtime [r] = [mkRow r] ∧
    (¬ (0 < r.atype ∧ r.atype < (AuditTypeNum : Int)) →
      (mkRow r).typeDesc = "unknown") ∧
    (¬ (0 < r.aresult ∧ r.aresult < (AuditResultNum : Int)) →
      (mkRow r).resultDesc = "unknown") ∧
    AuditTypeDesc r.atype ∈ AuditTypeDescs ∧
    AuditResultDesc r.aresult ∈ AuditResultDescs := by
  have hnum : AuditTypeNum = 39 := rfl
  have hrnum : AuditResultNum = 3 := rfl
  have he : queryEmit begtime endtime r.hdr = true := by
    unfold queryEmit
    rw [hf]
    simp only [Bool.and_eq_true, decide_eq_true_eq, beq_self_eq_true, and_true]
    omega
  refine ⟨?_, ?_, ?_, ?_, ?_⟩
  · rw [pgaudit_query_file_cons, if_pos hv, if_pos he]
    rfl
  · intro hbad
    unfold mkRow AuditTypeDesc
    rw [if_neg hbad]
    rfl
  · intro hbad
    unfold mkRow AuditResultDesc
    rw [if_neg hbad]
    rfl
  · unfold AuditTypeDesc
    split
    · rename_i hin
      apply getD_mem_of_lt
      rw [hnum] at hin
      show r.atype.toNat < AuditTypeDescs.length
      have h39 : AuditTypeDescs.length = 39 := rfl
      rw [h39]
      omega
    · apply getD_mem_of_lt
      decide
  · unfold AuditResultDesc
    split
    · rename_i hin
      apply getD_mem_of_lt
      rw [hrnum] at hin
      show r.aresult.toNat < AuditResultDescs.length
      have h3 : AuditResultDescs.length = 3 := rfl
      rw [h3]
      omega
    · apply getD_mem_of_lt
      decide

/-- Witness for C10: a live, in-range record with `type = 1000` and
`result = -3`, both outside the known enumerations. -/
theorem query_unknown_enum_safe_witness :
    headerValid ({ hdr := ⟨65, 85, 0, 13, 1, 5, 40⟩, atype := 1000,
                   aresult := -3, varstr := [] } : AuditRecord).hdr = true ∧
    pgaudit_query_file 0 10
        [({ hdr := ⟨65, 85, 0, 13, 1, 5, 40⟩, atype := 1000, aresult := -3,
            varstr := [] } : AuditRecord)] =
      [mkRow ({ hdr := ⟨65, 85, 0, 13, 1, 5, 40⟩, atype := 1000, aresult := -3,
                varstr := [] } : AuditRecord)] ∧
    (mkRow ({ hdr := ⟨65, 85, 0, 13, 1, 5, 40⟩, atype := 1000, aresult := -3,
              varstr := [] } : AuditRecord)).typeDesc = "unknown" := by
  have h := query_unknown_enum_safe
    ({ hdr := ⟨65, 85, 0, 13, 1, 5, 40⟩, atype := 1000, aresult := -3,
       varstr := [] } : AuditRecord) 0 10 (by decide) (by decide) (by decide)
    (by decide)
  exact ⟨by decide, h.1, h.2.1 (by decide)⟩

/-- One slot of the audit index table (`AuditIndexItem`): creation time
(negative when the wall clock rewound while the file was active), file
number, and file size in bytes. -/
structure AuditIndexItem where
  ctime : Int
  filenum : Nat
  filesize : Nat
deriving DecidableEq, Repr

instance : Inhabited AuditIndexItem := ⟨⟨0, 0, 0⟩⟩

/-- `SECS_PER_DAY`. -/
def SECS_PER_DAY : Nat := 86400

/-- `SPACE_MAXIMUM_SIZE = 1024 GB` (the 1 TiB absolute ceiling). -/
def SPACE_MAXIMUM_SIZE : Nat := 1024 * 1024 * 1024 * 1024

/-- The configuration snapshot read by the retention controller. -/
structure CleanupConfig where
  SpaceLimit : Nat      -- Audit_SpaceLimit, KiB
  RemainThreshold : Nat -- Audit_RemainThreshold
  RemainAge : Nat       -- Audit_RemainAge, days
  CleanupPolicy : Nat   -- Audit_CleanupPolicy: 0 = time-priority, 1 = space-priority
deriving DecidableEq, Repr

/-- `remain_time = (int64)Audit_RemainAge * SECS_PER_DAY`. -/
def remainTime (cfg : CleanupConfig) : Int :=
  (cfg.RemainAge : Int) * (SECS_PER_DAY : Int)

/-- The collector state visible to `pgaudit_cleanup`: the audit index table
(ring bounds, cursors, count, `last_audit_time`, slot array), the running
total `pgaudit_totalspace` of closed files, the current file's size
(`ftell(sysauditFile)`, sampled once before the loop), and an output log of
the file numbers unlinked by the pass. -/
structure CleanupState where
  maxnum : Nat
  begidx : Nat
  curidx : Nat
  count : Nat
  last_audit_time : Int
  data : List AuditIndexItem
  totalspace : Nat
  curFileSize : Nat
  deleted : List Nat
deriving DecidableEq, Repr

/-- The `while` guard of `pgaudit_cleanup`:
`totalspace + filesize >= SpaceLimit*1024 || count > RemainThreshold`. -/
def cleanupCond (cfg : CleanupConfig) (st : CleanupState) : Bool :=
  decide (cfg.SpaceLimit * 1024 ≤ st.totalspace + st.curFileSize) ||
  decide (cfg.RemainThreshold < st.count)

/-- The time-priority keep decision of `pgaudit_cleanup`: the loop breaks
(keeping the victim) when `count <= RemainThreshold`, the policy is
time-priority, `remain_time` is non-zero, the total is at or below the
ceiling, and `remain_time >= last_audit_time - victim.ctime` **or**
`remain_time > last_audit_time - next.ctime`. -/
def shouldKeep (cfg : CleanupConfig) (st : CleanupState) (index : Nat) : Bool :=
  decide (st.count ≤ cfg.RemainThreshold) &&
  decide (cfg.CleanupPolicy = 0) &&
  decide (remainTime cfg ≠ 0) &&
  decide (st.totalspace + st.curFileSize ≤ SPACE_MAXIMUM_SIZE) &&
  (decide (st.last_audit_time - (st.data.getD index default).ctime ≤ remainTime cfg) ||
   decide (st.last_audit_time - (st.data.getD ((index + 1) % st.maxnum) default).ctime <
     remainTime cfg))

/-- The eviction step of `pgaudit_cleanup`: unlink the victim's file (logged
in `deleted`), subtract its size from `pgaudit_totalspace` (64-bit unsigned
arithmetic), decrement `count` (floored at 0), advance `begidx`, and zero the
slot in place (the `memset_s`). -/
def evictSlot (st : CleanupState) (index : Nat) : CleanupState :=
  let item := st.data.getD index default
  { st with
    deleted := st.deleted ++ [item.filenum]
    totalspace := (st.totalspace + 2 ^ 64 - item.filesize % 2 ^ 64) % 2 ^ 64
    count := st.count - 1
    begidx := (index + 1) % st.maxnum
    data := st.data.set index default }

/-- The loop of `pgaudit_cleanup`, fuelled.  Each iteration re-checks the
guard, applies the time-priority keep decision, evicts the slot at `index`,
and stops when it has just processed the slot at `curidx`; otherwise it
continues at the new `begidx`.  (Unlinks are assumed to succeed; warnings and
the synthetic internal-event records have no effect on this state.) -/
def cleanup_loop (cfg : CleanupConfig) : Nat → Nat → CleanupState → CleanupState
  | 0, _, st => st
  | fuel + 1, index, st =>
    if cleanupCond cfg st then
      if shouldKeep cfg st index then st
      else
        let st' := evictSlot st index
        if index = st.curidx then st'
        else cleanup_loop cfg fuel st'.begidx st'
    else st

/-- `pgaudit_cleanup`: run the retention loop starting at `begidx` with a
fresh eviction log.  The loop walks the ring from `begidx` and always stops
upon processing `curidx`, so `maxnum + 1` fuel is never exhausted. -/
def pgaudit_cleanup (cfg : CleanupConfig) (st : CleanupState) : CleanupState :=
  cleanup_loop cfg (st.maxnum + 1) st.begidx { st with deleted := [] }

lemma cleanup_loop_succ (cfg : CleanupConfig) (fuel index : Nat)
    (st : CleanupState) :
    cleanup_loop cfg (fuel + 1) index st =
      if cleanupCond cfg st then
        if shouldKeep cfg st index then st
        else
          let st' := evictSlot st index
          if index = st.curidx then st'
          else cleanup_loop cfg fuel st'.begidx st'
      else st := rfl

lemma cleanup_loop_deleted_mono (cfg : CleanupConfig) :
    ∀ (fuel index : Nat) (st : CleanupState),
      st.deleted.length ≤ (cleanup_loop cfg fuel index st).deleted.length := by
  intro fuel
  induction fuel with
  | zero => intro index st; exact le_refl _
  | succ n ih =>
    intro index st
    rw [cleanup_loop_succ]
    by_cases h1 : cleanupCond cfg st
    · rw [if_pos h1]
      by_cases h2 : shouldKeep cfg st index
      · rw [if_pos h2]
      · rw [if_neg h2]
        have hev : st.deleted.length ≤ (evictSlot st index).deleted.length := by
          unfold evictSlot
          simp
        by_cases h3 : index = st.curidx
        · simpa [h3] using hev
        · simp only [h3, if_false]
          exact le_trans hev (ih _ _)
    · rw [if_neg h1]

lemma getD_set_self {α : Type} (a d : α) :
    ∀ (l : List α) (i : Nat), i < l.length → (l.set i a).getD i d = a := by
  intro l
  induction l with
  | nil => intro i h; simp at h
  | cons x xs ih =>
    intro i h
    cases i with
    | zero => rfl
    | succ m =>
      simp only [List.set_cons_succ, List.getD_cons_succ]
      exact ih m (by simpa using h)

/-- C1 (amended): the retention pass walks the ring from `begidx` and stops
right after processing the slot at `curidx`; in particular, when `begidx` has
caught up to `curidx` and the cleanup guard holds while the time-priority
keep decision does not, the pass evicts exactly the currently open file —
its file is unlinked and its index entry zeroed — and then stops. -/
theorem cleanup_caught_up_evicts_current_and_stops
    (cfg : CleanupConfig) (st : CleanupState)
    (hbc : st.begidx = st.curidx)
    (hcond : cleanupCond cfg st = true)
    (hkeep : shouldKeep cfg st st.begidx = false)
    (hlen : st.data.length = st.maxnum)
    (hlt : st.curidx < st.maxnum) :
    (pgaudit_cleanup cfg st).deleted =
      [(st.data.getD st.curidx default).filenum] ∧
    (pgaudit_cleanup cfg st).data.getD st.curidx default = default ∧
    (pgaudit_cleanup cfg st).begidx = (st.curidx + 1) % st.maxnum ∧
    (pgaudit_cleanup cfg st).curidx = st.curidx := by
  have hcond0 : cleanupCond cfg { st with deleted := ([] : List Nat) } = true := hcond
  have hkeep0 : shouldKeep cfg { st with deleted := ([] : List Nat) } st.begidx = false :=
    hkeep
  have hres : pgaudit_cleanup cfg st =
      evictSlot { st with deleted := ([] : List Nat) } st.begidx := by
    unfold pgaudit_cleanup
    rw [cleanup_loop_succ, if_pos hcond0, if_neg (by rw [hkeep0]; exact Bool.false_ne_true)]
    have hic : st.begidx = ({ st with deleted := ([] : List Nat) } : CleanupState).curidx :=
      hbc
    simp only [hic, if_true, if_pos rfl]
  rw [hres]
  unfold evictSlot
  refine ⟨by simp [hbc], ?_, by simp [hbc], rfl⟩
  show (st.data.set st.begidx default).getD st.curidx default = default
  rw [hbc]
  exact getD_set_self _ _ _ _ (by rw [hlen]; exact hlt)

/-- Witness for the amended C1: a single live slot (`begidx = curidx = 0`)
holding file number 7, space-priority policy, space limit exceeded by the
open file: the pass unlinks file 7, zeroes the slot, and stops. -/
theorem cleanup_caught_up_evicts_current_and_stops_witness :
    (pgaudit_cleanup ⟨1, 5, 1, 1⟩
        ⟨2, 0, 0, 1, 0, [⟨10, 7, 100⟩, ⟨0, 0, 0⟩], 0, 2048, []⟩).deleted =
      [((⟨2, 0, 0, 1, 0, [⟨10, 7, 100⟩, ⟨0, 0, 0⟩], 0, 2048, []⟩ :
          CleanupState).data.getD 0 default).filenum] := by
  exact (cleanup_caught_up_evicts_current_and_stops ⟨1, 5, 1, 1⟩
    ⟨2, 0, 0, 1, 0, [⟨10, 7, 100⟩, ⟨0, 0, 0⟩], 0, 2048, []⟩
    rfl (by decide) (by decide) rfl (by decide)).1

/-- Counterexample to C1 as stated: in this state `begidx = curidx = 0`, the
slot at `curidx` holds the currently open file (number 7), the space guard
holds and the policy is space-priority; `pgaudit_cleanup` unlinks file 7 and
zeroes the `curidx` index entry before stopping, so the currently open file
is evicted. -/
theorem cleanup_evicts_current_file_counterexample :
    (⟨2, 0, 0, 1, 0, [⟨10, 7, 100⟩, ⟨0, 0, 0⟩], 0, 2048, []⟩ :
        CleanupState).begidx =
      (⟨2, 0, 0, 1, 0, [⟨10, 7, 100⟩, ⟨0, 0, 0⟩], 0, 2048, []⟩ :
        CleanupState).curidx ∧
    (pgaudit_cleanup ⟨1, 5, 1, 1⟩
        ⟨2, 0, 0, 1, 0, [⟨10, 7, 100⟩, ⟨0, 0, 0⟩], 0, 2048, []⟩).deleted = [7] ∧
    (pgaudit_cleanup ⟨1, 5, 1, 1⟩
        ⟨2, 0, 0, 1, 0, [⟨10, 7, 100⟩, ⟨0, 0, 0⟩], 0, 2048, []⟩).data.getD 0
        default = default := by
  decide

/-- C2 (amended): under time-priority cleanup with `RemainAge > 0`, total at
or below the 1 TiB ceiling, `count ≤ RemainThreshold`, and the space guard
triggered, the retention loop stops and keeps the oldest file exactly when
`last_audit_time − victim.ctime ≤ RemainAge·86400` holds for the victim slot
**or** `last_audit_time − next.ctime < RemainAge·86400` holds for the next
slot; the victim is evicted only when both slots are old enough. -/
theorem cleanup_time_priority_stop_iff
    (cfg : CleanupConfig) (st : CleanupState)
    (hpol : cfg.CleanupPolicy = 0)
    (hage : cfg.RemainAge ≠ 0)
    (hmax : st.totalspace + st.curFileSize ≤ SPACE_MAXIMUM_SIZE)
    (hcnt : st.count ≤ cfg.RemainThreshold)
    (hspace : cfg.SpaceLimit * 1024 ≤ st.totalspace + st.curFileSize) :
    ((pgaudit_cleanup cfg st).deleted = [] ↔
      (st.last_audit_time - (st.data.getD st.begidx default).ctime ≤
          remainTime cfg ∨
        st.last_audit_time -
            (st.data.getD ((st.begidx + 1) % st.maxnum) default).ctime <
          remainTime cfg)) := by
  have hrt : remainTime cfg ≠ 0 := by
    unfold remainTime
    simp only [ne_eq, mul_eq_zero, not_or]
    constructor
    · exact_mod_cast hage
    · unfold SECS_PER_DAY; decide
  have hcond : cleanupCond cfg st = true := by
    unfold cleanupCond
    simp only [Bool.or_eq_true, decide_eq_true_eq]
    left; exact hspace
  have hkeepEq : shouldKeep cfg st st.begidx =
      (decide (st.last_audit_time - (st.data.getD st.begidx default).ctime ≤
          remainTime cfg) ||
        decide (st.last_audit_time -
            (st.data.getD ((st.begidx + 1) % st.maxnum) default).ctime <
          remainTime cfg)) := by
    unfold shouldKeep
    simp [hcnt, hpol, hrt, hmax]
  have hcond0 : cleanupCond cfg { st with deleted := ([] : List Nat) } = true := hcond
  by_cases ht :
      st.last_audit_time - (st.data.getD st.begidx default).ctime ≤
          remainTime cfg ∨
        st.last_audit_time -
            (st.data.getD ((st.begidx + 1) % st.maxnum) default).ctime <
          remainTime cfg
  · have hk : shouldKeep cfg st st.begidx = true := by
      rw [hkeepEq]
      simp only [Bool.or_eq_true, decide_eq_true_eq]
      exact ht
    have hk0 : shouldKeep cfg { st with deleted := ([] : List Nat) }
        st.begidx = true := hk
    have : pgaudit_cleanup cfg st = { st with deleted := ([] : List Nat) } := by
      unfold pgaudit_cleanup
      rw [cleanup_loop_succ, if_pos hcond0, if_pos hk0]
    rw [this]
    exact iff_of_true rfl ht
  · have hk : shouldKeep cfg st st.begidx = false := by
      rw [hkeepEq]
      simp only [Bool.or_eq_false_iff, decide_eq_false_iff_not]
      exact ⟨fun h => ht (Or.inl h), fun h => ht (Or.inr h)⟩
    have hk0 : shouldKeep cfg { st with deleted := ([] : List Nat) }
        st.begidx = false := hk
    have hne : (pgaudit_cleanup cfg st).deleted ≠ [] := by
      unfold pgaudit_cleanup
      rw [cleanup_loop_succ, if_pos hcond0,
        if_neg (by rw [hk0]; exact Bool.false_ne_true)]
      have hev : (evictSlot { st with deleted := ([] : List Nat) }
          st.begidx).deleted.length = 1 := by
        unfold evictSlot
        simp
      by_cases hc : st.begidx = ({ st with deleted := ([] : List Nat) } :
          CleanupState).curidx
      · simp only [hc, if_true, if_pos rfl]
        intro hx
        rw [show st.begidx = st.curidx from hc] at hev
        rw [hx] at hev
        simp at hev
      · simp only [hc, if_false]
        intro hx
        have := cleanup_loop_deleted_mono cfg st.maxnum
          (evictSlot { st with deleted := ([] : List Nat) } st.begidx).begidx
          (evictSlot { st with deleted := ([] : List Nat) } st.begidx)
        rw [hx, hev] at this
        simp at this
    exact iff_of_false hne ht

/-- Witness for the amended C2: time-priority, `RemainAge = 1` day, two live
slots, victim written 1 second before `last_audit_time` (young): the pass
keeps everything, matching the disjunction's first disjunct. -/
theorem cleanup_time_priority_stop_iff_witness :
    (pgaudit_cleanup ⟨1, 5, 1, 0⟩
        ⟨3, 0, 1, 2, 200000, [⟨199999, 1, 100⟩, ⟨199999, 2, 0⟩, ⟨0, 0, 0⟩],
          2048, 0, []⟩).deleted = [] := by
  exact (cleanup_time_priority_stop_iff ⟨1, 5, 1, 0⟩
    ⟨3, 0, 1, 2, 200000, [⟨199999, 1, 100⟩, ⟨199999, 2, 0⟩, ⟨0, 0, 0⟩],
      2048, 0, []⟩
    rfl (by decide) (by decide) (by decide) (by decide)).mpr
    (Or.inl (by decide))

/-- Counterexample to C2 as stated: time-priority, `RemainAge = 1` day,
total below the ceiling, `count ≤ RemainThreshold`, space guard triggered;
the victim slot is old enough (`last_audit_time − victim.ctime = 200000 ≥
86400`), so the claim says it must be evicted — but the next slot is young
and the code's disjunction keeps the victim: nothing is deleted. -/
theorem cleanup_time_priority_counterexample :
    remainTime ⟨1, 5, 1, 0⟩ ≤
      (⟨3, 0, 1, 2, 200000, [⟨0, 1, 100⟩, ⟨199999, 2, 0⟩, ⟨0, 0, 0⟩],
          2048, 0, []⟩ : CleanupState).last_audit_time -
        ((⟨3, 0, 1, 2, 200000, [⟨0, 1, 100⟩, ⟨199999, 2, 0⟩, ⟨0, 0, 0⟩],
            2048, 0, []⟩ : CleanupState).data.getD 0 default).ctime ∧
    (pgaudit_cleanup ⟨1, 5, 1, 0⟩
        ⟨3, 0, 1, 2, 200000, [⟨0, 1, 100⟩, ⟨199999, 2, 0⟩, ⟨0, 0, 0⟩],
          2048, 0, []⟩).deleted = [] := by
  decide

/-- `PIPE_CHUNK_SIZE = min(PIPE_BUF, 65536)`; `PIPE_BUF` is 4096 on Linux. -/
def PIPE_CHUNK_SIZE : Nat := 4096

/-- `PIPE_HEADER_SIZE = offsetof(PipeProtoHeader, data)`: 2 sentinel bytes,
the 16-bit `len`, 4 alignment padding bytes, the 8-byte `pid`, and the
`is_last` byte. -/
def PIPE_HEADER_SIZE : Nat := 17

/-- `PIPE_MAX_PAYLOAD = PIPE_CHUNK_SIZE - PIPE_HEADER_SIZE`. -/
def PIPE_MAX_PAYLOAD : Nat := PIPE_CHUNK_SIZE - PIPE_HEADER_SIZE

/-- One protocol chunk as emitted by `write_pipe_chunks`: the `is_last` flag
byte (`'t'` or `'f'`) and the payload bytes. -/
structure Chunk where
  last_flag : Char
  payload : List Nat
deriving DecidableEq, Repr

/-- `write_pipe_chunks`: while more than `PIPE_MAX_PAYLOAD` bytes remain,
emit a full chunk flagged `'f'`; then emit the remainder as one final chunk
flagged `'t'`.  (Each chunk is one atomic `write`; the pid and sentinel
bytes are fixed per producer and are not modelled here.) -/
def write_pipe_chunks (data : List Nat) : List Chunk :=
  if _h : PIPE_MAX_PAYLOAD < data.length then
    ⟨'f', data.take PIPE_MAX_PAYLOAD⟩ ::
      write_pipe_chunks (data.drop PIPE_MAX_PAYLOAD)
  else [⟨'t', data⟩]
termination_by data.length
decreasing_by
  simp only [List.length_drop]
  have hp : 0 < PIPE_MAX_PAYLOAD := by decide
  omega

lemma write_pipe_chunks_of_lt (data : List Nat)
    (h : PIPE_MAX_PAYLOAD < data.length) :
    write_pipe_chunks data =
      ⟨'f', data.take PIPE_MAX_PAYLOAD⟩ ::
        write_pipe_chunks (data.drop PIPE_MAX_PAYLOAD) := by
  rw [write_pipe_chunks]
  rw [dif_pos h]

lemma write_pipe_chunks_of_le (data : List Nat)
    (h : ¬ PIPE_MAX_PAYLOAD < data.length) :
    write_pipe_chunks data = [⟨'t', data⟩] := by
  rw [write_pipe_chunks]
  rw [dif_neg h]

lemma write_pipe_chunks_spec_aux :
    ∀ (n : Nat) (data : List Nat), data.length ≤ n → 0 < data.length →
      ((write_pipe_chunks data).map Chunk.payload).flatten = data ∧
      (write_pipe_chunks data).length =
        (data.length + PIPE_MAX_PAYLOAD - 1) / PIPE_MAX_PAYLOAD ∧
      (∀ c ∈ (write_pipe_chunks data).dropLast,
        c.last_flag = 'f' ∧ c.payload.length = PIPE_MAX_PAYLOAD) ∧
      (∃ p, (write_pipe_chunks data).getLast? = some ⟨'t', p⟩) := by
  intro n
  induction n with
  | zero => intro data h1 h2; omega
  | succ m ih =>
    intro data h1 h2
    have hpm : PIPE_MAX_PAYLOAD = 4079 := rfl
    by_cases h : PIPE_MAX_PAYLOAD < data.length
    · rw [write_pipe_chunks_of_lt data h]
      have hdl : (data.drop PIPE_MAX_PAYLOAD).length =
          data.length - PIPE_MAX_PAYLOAD := by
        simp
      have ihd := ih (data.drop PIPE_MAX_PAYLOAD)
        (by rw [hdl]; omega) (by rw [hdl]; omega)
      obtain ⟨ij, ic, idl, p, ilast⟩ := ihd
      have hne : write_pipe_chunks (data.drop PIPE_MAX_PAYLOAD) ≠ [] := by
        intro hx
        rw [hx] at ilast
        simp at ilast
      obtain ⟨c0, cs, hcs⟩ := List.exists_cons_of_ne_nil hne
      refine ⟨?_, ?_, ?_, ?_⟩
      · rw [List.map_cons, List.flatten_cons, ij]
        exact List.take_append_drop _ _
      · simp only [List.length_cons, ic, hdl]
        rw [hpm] at h ⊢
        omega
      · intro c hc
        rw [hcs] at hc
        rw [List.dropLast_cons₂, List.mem_cons] at hc
        rcases hc with rfl | hc
        · refine ⟨rfl, ?_⟩
          rw [List.length_take]
          exact Nat.min_eq_left (le_of_lt h)
        · apply idl
          rw [hcs]
          exact hc
      · refine ⟨p, ?_⟩
        rw [hcs, List.getLast?_cons_cons]
        rw [hcs] at ilast
        exact ilast
    · rw [write_pipe_chunks_of_le data h]
      refine ⟨by simp, ?_, by simp, ⟨data, rfl⟩⟩
      rw [hpm] at h ⊢
      simp only [List.length_cons, List.length_nil]
      omega

/-- C7: for every non-empty payload of `L` bytes, the producer-side codec
emits exactly `⌈L / PIPE_MAX_PAYLOAD⌉` chunks whose payloads concatenate to
the original payload in order; every chunk except the last carries
`is_last = 'f'` and a full `PIPE_MAX_PAYLOAD`-byte payload, and the last
chunk carries `is_last = 't'`. -/
theorem write_pipe_chunks_spec (data : List Nat) (h : 0 < data.length) :
    ((write_pipe_chunks data).map Chunk.payload).flatten = data ∧
    (write_pipe_chunks data).length =
      (data.length + PIPE_MAX_PAYLOAD - 1) / PIPE_MAX_PAYLOAD ∧
    (∀ c ∈ (write_pipe_chunks data).dropLast,
      c.last_flag = 'f' ∧ c.payload.length = PIPE_MAX_PAYLOAD) ∧
    (∃ p, (write_pipe_chunks data).getLast? = some ⟨'t', p⟩) :=
  write_pipe_chunks_spec_aux data.length data (le_refl _) h

/-- Witness for C7 at the 3-byte payload `[1, 2, 3]` (a single final chunk). -/
theorem write_pipe_chunks_spec_witness :
    ((write_pipe_chunks [1, 2, 3]).map Chunk.payload).flatten = [1, 2, 3] ∧
    (write_pipe_chunks [1, 2, 3]).length =
      (([1, 2, 3] : List Nat).length + PIPE_MAX_PAYLOAD - 1) / PIPE_MAX_PAYLOAD :=
  ⟨(write_pipe_chunks_spec [1, 2, 3] (by decide)).1,
   (write_pipe_chunks_spec [1, 2, 3] (by decide)).2.1⟩

/-- Little-endian byte decoding of a byte list (x86 host order). -/
def bytesToNatLE : List Nat → Nat
  | [] => 0
  | b :: bs => b + 256 * bytesToNatLE bs

/-- Little-endian encoding of a natural number into `w` bytes. -/
def natToBytesLE (w n : Nat) : List Nat :=
  (List.range w).map (fun i => n / 256 ^ i % 256)

/-- Little-endian two's-complement encoding of a 64-bit `pg_time_t`. -/
def intToBytesLE8 (t : Int) : List Nat :=
  natToBytesLE 8 (t.emod (2 ^ 64)).toNat

/-- The parsed fields of a `PipeProtoHeader` read from the front of the
buffer: sentinel bytes at offsets 0-1, the 16-bit `len` at offset 2, the
8-byte `pid` at offset 8 (after 4 alignment padding bytes), and the
`is_last` byte at offset 16. -/
structure PipeHdr where
  nul0 : Nat
  nul1 : Nat
  len : Nat
  pid : Nat
  lastByte : Nat
deriving DecidableEq, Repr

/-- Read a `PipeProtoHeader` from the front of the buffer (the `memcpy_s`
into `p`). -/
def parsePipeHeader (bytes : List Nat) : PipeHdr :=
  { nul0 := bytes.getD 0 0
    nul1 := bytes.getD 1 0
    len := bytesToNatLE ((bytes.drop 2).take 2)
    pid := bytesToNatLE ((bytes.drop 8).take 8)
    lastByte := bytes.getD 16 0 }

/-- The protocol-validity test of `process_pipe_input`:
`nuls == 0,0 && 0 < len <= PIPE_MAX_PAYLOAD && pid != 0 && is_last in {'t','f'}`
(`'t'` = 116, `'f'` = 102). -/
def pipeHeaderValid (p : PipeHdr) : Bool :=
  p.nul0 == 0 && p.nul1 == 0 && decide (0 < p.len) &&
    decide (p.len ≤ PIPE_MAX_PAYLOAD) && p.pid != 0 &&
    (p.lastByte == 116 || p.lastByte == 102)

/-- Length of the maximal non-zero prefix of a byte list. -/
def nonZeroPrefixLen : List Nat → Nat
  | [] => 0
  | b :: bs => if b = 0 then 0 else 1 + nonZeroPrefixLen bs

/-- The non-protocol scan of `process_pipe_input`:
`for (chunklen = 1; chunklen < count; chunklen++) if (cursor[chunklen] == 0) break;`
— one byte is always consumed, then the scan stops at the next zero byte or
at the end of the buffered data. -/
def nonprotocol_chunklen (bytes : List Nat) : Nat :=
  1 + nonZeroPrefixLen (bytes.drop 1)

/-- The bytes `process_pipe_input` hands to `pgaudit_write_file` for a
non-protocol segment: `pgaudit_write_file(cursor, chunklen)`. -/
def nonprotocolSegment (bytes : List Nat) : List Nat :=
  bytes.take (nonprotocol_chunklen bytes)

/-- In-place overwrite of a byte list at offset `off` with `patch`,
truncated to the original extent (a `memcpy` into the middle of a buffer of
which only the original `count` bytes are later written out). -/
def overwriteAt : List Nat → Nat → List Nat → List Nat
  | [], _, _ => []
  | b :: bs, off + 1, patch => b :: overwriteAt bs off patch
  | _ :: bs, 0, p :: ps => p :: overwriteAt bs 0 ps
  | b :: bs, 0, [] => b :: bs

/-- `offsetof(AuditMsgHdr, time)`: 2 signature bytes + three 16-bit fields. -/
def AUDIT_TIME_OFFSET : Nat := 8

/-- `offsetof(AuditMsgHdr, size)`. -/
def AUDIT_SIZE_OFFSET : Nat := 16

/-- The byte-level effect of `pgaudit_write_file` on the `count` bytes it
persists: before the `fwrite`, the collector stamps the current time over
the 8 bytes at `offsetof(AuditMsgHdr, time)` and the byte count over the
4 bytes at `offsetof(AuditMsgHdr, size)` of the buffer it was handed. -/
def pgaudit_write_file_bytes (now : Int) (buffer : List Nat) : List Nat :=
  overwriteAt (overwriteAt buffer AUDIT_TIME_OFFSET (intToBytesLE8 now))
    AUDIT_SIZE_OFFSET (natToBytesLE 4 buffer.length)

/-- Bytes persisted for one non-protocol segment: the scan result passed
through the write path. -/
def process_nonprotocol_segment (now : Int) (bytes : List Nat) : List Nat :=
  pgaudit_write_file_bytes now (nonprotocolSegment bytes)

lemma overwriteAt_length :
    ∀ (buf : List Nat) (off : Nat) (patch : List Nat),
      (overwriteAt buf off patch).length = buf.length := by
  intro buf
  induction buf with
  | nil => intro off patch; rfl
  | cons b bs ih =>
    intro off patch
    cases off with
    | succ o =>
      show (b :: overwriteAt bs o patch).length = (b :: bs).length
      simp [ih o patch]
    | zero =>
      cases patch with
      | nil => rfl
      | cons p ps =>
        show (p :: overwriteAt bs 0 ps).length = (b :: bs).length
        simp [ih 0 ps]

lemma overwriteAt_getD_lt :
    ∀ (buf : List Nat) (off : Nat) (patch : List Nat) (i : Nat), i < off →
      (overwriteAt buf off patch).getD i 0 = buf.getD i 0 := by
  intro buf
  induction buf with
  | nil => intro off patch i _; rfl
  | cons b bs ih =>
    intro off patch i hi
    cases off with
    | zero => omega
    | succ o =>
      cases i with
      | zero => rfl
      | succ j =>
        show (overwriteAt bs o patch).getD j 0 = bs.getD j 0
        exact ih o patch j (by omega)

lemma overwriteAt_getD_ge :
    ∀ (buf : List Nat) (off : Nat) (patch : List Nat) (i : Nat),
      off + patch.length ≤ i →
      (overwriteAt buf off patch).getD i 0 = buf.getD i 0 := by
  intro buf
  induction buf with
  | nil => intro off patch i _; rfl
  | cons b bs ih =>
    intro off patch i hi
    cases off with
    | succ o =>
      cases i with
      | zero => rfl
      | succ j =>
        show (overwriteAt bs o patch).getD j 0 = bs.getD j 0
        exact ih o patch j (by omega)
    | zero =>
      cases patch with
      | nil => rfl
      | cons p ps =>
        cases i with
        | zero => simp at hi
        | succ j =>
          show (overwriteAt bs 0 ps).getD j 0 = bs.getD j 0
          exact ih 0 ps j (by simp at hi; omega)

lemma overwriteAt_getD_mid :
    ∀ (buf : List Nat) (off : Nat) (patch : List Nat) (i : Nat),
      off ≤ i → i < off + patch.length → i < buf.length →
      (overwriteAt buf off patch).getD i 0 = patch.getD (i - off) 0 := by
  intro buf
  induction buf with
  | nil => intro off patch i _ _ h; simp at h
  | cons b bs ih =>
    intro off patch i h1 h2 h3
    cases off with
    | succ o =>
      cases i with
      | zero => omega
      | succ j =>
        show (overwriteAt bs o patch).getD j 0 = patch.getD (j + 1 - (o + 1)) 0
        have := ih o patch j (by omega) (by omega) (by simpa using h3)
        simpa using this
    | zero =>
      cases patch with
      | nil => simp at h2
      | cons p ps =>
        cases i with
        | zero => rfl
        | succ j =>
          show (overwriteAt bs 0 ps).getD j 0 = (p :: ps).getD (j + 1) 0
          have := ih 0 ps j (by omega) (by simp at h2 ⊢; omega)
            (by simpa using h3)
          simpa using this

lemma nonZeroPrefixLen_le : ∀ (l : List Nat), nonZeroPrefixLen l ≤ l.length := by
  intro l
  induction l with
  | nil => exact le_refl _
  | cons b bs ih =>
    unfold nonZeroPrefixLen
    split
    · simp
    · simp only [List.length_cons]
      omega

lemma nonZeroPrefixLen_getD_ne :
    ∀ (l : List Nat) (i : Nat), i < nonZeroPrefixLen l → l.getD i 0 ≠ 0 := by
  intro l
  induction l with
  | nil => intro i h; simp [nonZeroPrefixLen] at h
  | cons b bs ih =>
    intro i h
    unfold nonZeroPrefixLen at h
    by_cases hb : b = 0
    · rw [if_pos hb] at h; omega
    · rw [if_neg hb] at h
      cases i with
      | zero => simpa using hb
      | succ j =>
        show bs.getD j 0 ≠ 0
        exact ih j (by omega)

lemma nonZeroPrefixLen_getD_eq :
    ∀ (l : List Nat), nonZeroPrefixLen l < l.length →
      l.getD (nonZeroPrefixLen l) 0 = 0 := by
  intro l
  induction l with
  | nil => intro h; simp [nonZeroPrefixLen] at h
  | cons b bs ih =>
    intro h
    by_cases hb : b = 0
    · have h0 : nonZeroPrefixLen (b :: bs) = 0 := by
        show (if b = 0 then 0 else 1 + nonZeroPrefixLen bs) = 0
        rw [if_pos hb]
      rw [h0]
      simpa using hb
    · have hn : nonZeroPrefixLen (b :: bs) = nonZeroPrefixLen bs + 1 := by
        show (if b = 0 then 0 else 1 + nonZeroPrefixLen bs) =
          nonZeroPrefixLen bs + 1
        rw [if_neg hb]
        omega
      rw [hn, List.getD_cons_succ]
      apply ih
      rw [hn] at h
      simp only [List.length_cons] at h
      omega

/-- C3 (amended): for every buffered segment that does not begin with a
valid chunk header, the reader scans forward to the next zero byte (the
scan consumes at least one byte, stops before the first zero byte at or
after offset 1, or at the end of the data) and hands the bytes up to it to
the write path — which persists them with the *same length* and unchanged
contents *except* that the 8 bytes at the header's `time` offset are
overwritten with the collector's current wall clock and the 4 bytes at the
`size` offset with the segment length, where those offsets exist. -/
theorem nonprotocol_passthrough_stamped (now : Int) (bytes : List Nat)
    (_hv : pipeHeaderValid (parsePipeHeader bytes) = false)
    (hlen : 24 ≤ bytes.length) :
    (∀ j, 1 ≤ j → j < nonprotocol_chunklen bytes → bytes.getD j 0 ≠ 0) ∧
    (nonprotocol_chunklen bytes < bytes.length →
      bytes.getD (nonprotocol_chunklen bytes) 0 = 0) ∧
    (process_nonprotocol_segment now bytes).length =
      (nonprotocolSegment bytes).length ∧
    (∀ i, i < AUDIT_TIME_OFFSET →
      (process_nonprotocol_segment now bytes).getD i 0 =
        (nonprotocolSegment bytes).getD i 0) ∧
    (∀ i, AUDIT_SIZE_OFFSET + 4 ≤ i →
      (process_nonprotocol_segment now bytes).getD i 0 =
        (nonprotocolSegment bytes).getD i 0) ∧
    (∀ i, AUDIT_TIME_OFFSET ≤ i → i < AUDIT_TIME_OFFSET + 8 →
      i < (nonprotocolSegment bytes).length →
      (process_nonprotocol_segment now bytes).getD i 0 =
        (intToBytesLE8 now).getD (i - AUDIT_TIME_OFFSET) 0) ∧
    (∀ i, AUDIT_SIZE_OFFSET ≤ i → i < AUDIT_SIZE_OFFSET + 4 →
      i < (nonprotocolSegment bytes).length →
      (process_nonprotocol_segment now bytes).getD i 0 =
        (natToBytesLE 4 (nonprotocolSegment bytes).length).getD
          (i - AUDIT_SIZE_OFFSET) 0) := by
  have hto : AUDIT_TIME_OFFSET = 8 := rfl
  have hso : AUDIT_SIZE_OFFSET = 16 := rfl
  have htl : (intToBytesLE8 now).length = 8 := by
    unfold intToBytesLE8 natToBytesLE
    simp
  have hsl : ∀ m, (natToBytesLE 4 m).length = 4 := by
    intro m
    unfold natToBytesLE
    simp
  refine ⟨?_, ?_, ?_, ?_, ?_, ?_, ?_⟩
  · intro j h1 h2
    unfold nonprotocol_chunklen at h2
    have := nonZeroPrefixLen_getD_ne (bytes.drop 1) (j - 1) (by omega)
    rw [List.getD_eq_getElem?_getD, List.getElem?_drop] at this
    rw [List.getD_eq_getElem?_getD]
    have harg : 1 + (j - 1) = j := by omega
    rw [harg] at this
    exact this
  · intro hcl
    unfold nonprotocol_chunklen at hcl ⊢
    have hlt : nonZeroPrefixLen (bytes.drop 1) < (bytes.drop 1).length := by
      simp only [List.length_drop]
      omega
    have := nonZeroPrefixLen_getD_eq (bytes.drop 1) hlt
    rw [List.getD_eq_getElem?_getD, List.getElem?_drop] at this
    rw [List.getD_eq_getElem?_getD]
    exact this
  · unfold process_nonprotocol_segment pgaudit_write_file_bytes
    rw [overwriteAt_length, overwriteAt_length]
  · intro i hi
    rw [hto] at hi
    unfold process_nonprotocol_segment pgaudit_write_file_bytes
    rw [overwriteAt_getD_lt _ _ _ _ (by rw [hso]; omega),
      overwriteAt_getD_lt _ _ _ _ (by rw [hto]; omega)]
  · intro i hi
    rw [hso] at hi
    unfold process_nonprotocol_segment pgaudit_write_file_bytes
    rw [overwriteAt_getD_ge _ _ _ _ (by rw [hso, hsl]; omega),
      overwriteAt_getD_ge _ _ _ _ (by rw [hto, htl]; omega)]
  · intro i hi1 hi2 hi3
    rw [hto] at hi1 hi2
    unfold process_nonprotocol_segment pgaudit_write_file_bytes
    rw [overwriteAt_getD_lt _ _ _ _ (by rw [hso]; omega)]
    rw [overwriteAt_getD_mid _ _ _ _ (by rw [hto]; omega)
      (by rw [hto, htl]; omega) hi3]
  · intro i hi1 hi2 hi3
    rw [hso] at hi1 hi2
    unfold process_nonprotocol_segment pgaudit_write_file_bytes
    rw [overwriteAt_getD_mid _ _ _ _ (by rw [hso]; omega)
      (by rw [hso, hsl]; omega) (by rw [overwriteAt_length]; exact hi3)]

/-- Witness for the amended C3: a 24-byte all-ones segment (whose first byte
is non-zero, so the header is invalid); position 0 is persisted unchanged. -/
theorem nonprotocol_passthrough_stamped_witness :
    pipeHeaderValid (parsePipeHeader (List.replicate 24 1)) = false ∧
    (process_nonprotocol_segment 0 (List.replicate 24 1)).getD 0 0 =
      (nonprotocolSegment (List.replicate 24 1)).getD 0 0 := by
  refine ⟨by decide, ?_⟩
  exact (nonprotocol_passthrough_stamped 0 (List.replicate 24 1) (by decide)
    (by decide)).2.2.2.1 0 (by decide)

/-- Counterexample to C3 as stated: the 24-byte all-ones segment does not
begin with a valid chunk header, the scan takes all 24 bytes (no zero byte
follows), yet the persisted bytes are *not* the received bytes unchanged —
the write path stamps the time and size fields over offsets 8..19. -/
theorem nonprotocol_passthrough_counterexample :
    pipeHeaderValid (parsePipeHeader (List.replicate 24 1)) = false ∧
    nonprotocol_chunklen (List.replicate 24 1) = 24 ∧
    process_nonprotocol_segment 0 (List.replicate 24 1) ≠
      nonprotocolSegment (List.replicate 24 1) := by
  decide

/-- The collector state touched by rotation: the index table ring, the
running total space, the current file's size, the planned
`next_rotation_time`, and the current wall clock (`time(NULL)`). -/
structure RotateState where
  maxnum : Nat
  begidx : Nat
  curidx : Nat
  count : Nat
  data : List AuditIndexItem
  totalspace : Nat
  curFileSize : Nat
  next_rotation_time : Int
  now : Int
deriving DecidableEq, Repr

/-- The `AUDIT_COUNT` macro. -/
def AUDIT_COUNT (st : RotateState) : Nat :=
  if st.begidx ≤ st.curidx then st.curidx - st.begidx + 1
  else st.curidx + st.maxnum + 1 - st.begidx

/-- `auditfile_close`: freeze the current slot's `filesize`, accumulate it
into `pgaudit_totalspace`, advance `curidx` with wrap-around, and assign the
next slot `filenum = previous + 1`. -/
def auditfile_close (st : RotateState) : RotateState :=
  let item := st.data.getD st.curidx default
  let data1 := st.data.set st.curidx { item with filesize := st.curFileSize }
  let fnum := item.filenum + 1
  let curidx2 := (st.curidx + 1) % st.maxnum
  let item2 := data1.getD curidx2 default
  { st with
    data := data1.set curidx2 { item2 with filenum := fnum }
    curidx := curidx2
    totalspace := st.totalspace + st.curFileSize }

/-- `auditfile_open`: on success, when the named file does not already exist
(`exist = false`) record `timestamp` as the new slot's `ctime`; then refresh
`count` from the ring cursors and rewrite the index file.  A successful
open is assumed (the failure paths only log or disable rotation). -/
def auditfile_open (timestamp : Int) (exist : Bool) (st : RotateState) :
    RotateState :=
  let st1 :=
    if exist then st
    else
      let item := st.data.getD st.curidx default
      { st with data := st.data.set st.curidx { item with ctime := timestamp } }
  { st1 with count := AUDIT_COUNT st1 }

/-- `set_next_rotation_time`: the next multiple of `Audit_RotationAge`
minutes, aligned to the configured timezone (`gmtoff` is `tm_gmtoff`),
strictly greater than `now`.  C's `%` on `pg_time_t` truncates toward zero,
hence `Int.tmod`. -/
def set_next_rotation_time (rotationAge : Nat) (gmtoff : Int)
    (st : RotateState) : RotateState :=
  if rotationAge = 0 then st
  else
    let rotinterval : Int := (rotationAge : Int) * 60
    let n1 := st.now + gmtoff
    { st with next_rotation_time := n1 - Int.tmod n1 rotinterval + rotinterval - gmtoff }

/-- `auditfile_rotate`: for a time-based rotation the new file's logical
creation time is the planned `next_rotation_time`, otherwise the current
wall clock; close the current file, open the new one, and recompute the next
planned rotation time. -/
def auditfile_rotate (rotationAge : Nat) (gmtoff : Int)
    (time_based_rotation size_based_rotation exist : Bool)
    (st : RotateState) : RotateState :=
  let fntime := if time_based_rotation then st.next_rotation_time else st.now
  if time_based_rotation || size_based_rotation then
    set_next_rotation_time rotationAge gmtoff
      (auditfile_open fntime exist (auditfile_close st))
  else
    set_next_rotation_time rotationAge gmtoff st

lemma set_next_rotation_time_data (rotationAge : Nat) (gmtoff : Int)
    (st : RotateState) :
    (set_next_rotation_time rotationAge gmtoff st).data = st.data := by
  unfold set_next_rotation_time
  split <;> rfl

lemma set_next_rotation_time_curidx (rotationAge : Nat) (gmtoff : Int)
    (st : RotateState) :
    (set_next_rotation_time rotationAge gmtoff st).curidx = st.curidx := by
  unfold set_next_rotation_time
  split <;> rfl

lemma auditfile_close_data_length (st : RotateState) :
    (auditfile_close st).data.length = st.data.length := by
  unfold auditfile_close
  simp

lemma auditfile_open_fresh_ctime (fntime : Int) (s : RotateState)
    (hsl : s.curidx < s.data.length) :
    ((auditfile_open fntime false s).data.getD
      (auditfile_open fntime false s).curidx default).ctime = fntime := by
  show ((s.data.set s.curidx
      { s.data.getD s.curidx default with ctime := fntime }).getD
        s.curidx default).ctime = fntime
  rw [getD_set_self _ _ _ _ hsl]

/-- C6: rotation name stability.  For a time-based rotation the new slot's
`ctime` recorded in the index table equals the planned `next_rotation_time`
— independent of the current wall clock, so also when the rotation is
serviced late — while a non-time-based (size- or request-driven) rotation
records the current time.  (The freshly numbered file is assumed not to
pre-exist on disk.) -/
theorem rotation_name_stability (rotationAge : Nat) (gmtoff : Int)
    (sb : Bool) (st : RotateState)
    (hlen : st.data.length = st.maxnum) (hm : 0 < st.maxnum) :
    ((auditfile_rotate rotationAge gmtoff true sb false st).data.getD
        (auditfile_rotate rotationAge gmtoff true sb false st).curidx
        default).ctime = st.next_rotation_time ∧
    ((auditfile_rotate rotationAge gmtoff false true false st).data.getD
        (auditfile_rotate rotationAge gmtoff false true false st).curidx
        default).ctime = st.now := by
  have hclt : (auditfile_close st).curidx < (auditfile_close st).data.length := by
    rw [auditfile_close_data_length, hlen]
    exact Nat.mod_lt _ hm
  constructor
  · have h1 : auditfile_rotate rotationAge gmtoff true sb false st =
        set_next_rotation_time rotationAge gmtoff
          (auditfile_open st.next_rotation_time false (auditfile_close st)) := rfl
    rw [h1, set_next_rotation_time_data, set_next_rotation_time_curidx]
    exact auditfile_open_fresh_ctime st.next_rotation_time
      (auditfile_close st) hclt
  · have h2 : auditfile_rotate rotationAge gmtoff false true false st =
        set_next_rotation_time rotationAge gmtoff
          (auditfile_open st.now false (auditfile_close st)) := rfl
    rw [h2, set_next_rotation_time_data, set_next_rotation_time_curidx]
    exact auditfile_open_fresh_ctime st.now (auditfile_close st) hclt

/-- Witness for C6: a 2-slot ring, rotation serviced 90 seconds after the
planned time 600 (late by less than the 10-minute interval): the new slot's
`ctime` is 600, not 690. -/
theorem rotation_name_stability_witness :
    ((auditfile_rotate 10 0 true false false
        ⟨2, 0, 0, 1, [⟨100, 4, 50⟩, ⟨0, 0, 0⟩], 0, 10, 600, 690⟩).data.getD
        (auditfile_rotate 10 0 true false false
          ⟨2, 0, 0, 1, [⟨100, 4, 50⟩, ⟨0, 0, 0⟩], 0, 10, 600, 690⟩).curidx
        default).ctime = 600 :=
  (rotation_name_stability 10 0 false
    ⟨2, 0, 0, 1, [⟨100, 4, 50⟩, ⟨0, 0, 0⟩], 0, 10, 600, 690⟩
    rfl (by decide)).1

/-- The collector state touched by the wall-clock-rewind check of
`pgaudit_write_file`. -/
structure WriteState where
  maxnum : Nat
  curidx : Nat
  data : List AuditIndexItem
  last_audit_time : Int
deriving DecidableEq, Repr

/-- The index-table side effect of `pgaudit_write_file` when stamping a
record at wall clock `now`: if the clock went backwards
(`last_audit_time > curtime`), negate the current slot's `ctime` when it is
still positive, update `last_audit_time`, rewrite the index file and emit
the synthetic `AUDIT_INTERNAL_EVENT` record `"system time changed."` (the
returned flag); otherwise just update `last_audit_time`.  The record bytes
are then written either way. -/
def pgaudit_write_file_upd (now : Int) (st : WriteState) : WriteState × Bool :=
  if now < st.last_audit_time then
    let item := st.data.getD st.curidx default
    let item2 := if 0 < item.ctime then { item with ctime := -item.ctime } else item
    ({ st with data := st.data.set st.curidx item2, last_audit_time := now }, true)
  else
    ({ st with last_audit_time := now }, false)

/-- C8 (amended): on every append whose stamped time is less than the index
table's `last_audit_time`, the write path makes the current slot's `ctime`
non-positive — negating it when positive and leaving an already-negative
rewind marker unchanged, i.e. the new `ctime` is `-|old ctime|` — rewrites
the index and emits the synthetic internal-event record (the returned flag),
updates `last_audit_time` to the stamped time, and continues writing. -/
theorem write_rewind_marks_ctime (now : Int) (st : WriteState)
    (hrw : now < st.last_audit_time) (hc : st.curidx < st.data.length) :
    (pgaudit_write_file_upd now st).2 = true ∧
    (pgaudit_write_file_upd now st).1.last_audit_time = now ∧
    ((pgaudit_write_file_upd now st).1.data.getD st.curidx default).ctime =
      -(((st.data.getD st.curidx default).ctime.natAbs : Int)) := by
  unfold pgaudit_write_file_upd
  rw [if_pos hrw]
  refine ⟨rfl, rfl, ?_⟩
  show ((st.data.set st.curidx
      (if 0 < (st.data.getD st.curidx default).ctime then
        { st.data.getD st.curidx default with
          ctime := -(st.data.getD st.curidx default).ctime }
      else st.data.getD st.curidx default)).getD st.curidx default).ctime =
    -(((st.data.getD st.curidx default).ctime.natAbs : Int))
  rw [getD_set_self _ _ _ _ hc]
  split
  · rename_i hpos
    show -(st.data.getD st.curidx default).ctime =
      -(((st.data.getD st.curidx default).ctime.natAbs : Int))
    omega
  · rename_i hpos
    omega

/-- Witness for the amended C8: slot `ctime = 9`, `last_audit_time = 100`,
append stamped at 50: the flag fires and the slot's `ctime` becomes `-9`. -/
theorem write_rewind_marks_ctime_witness :
    (pgaudit_write_file_upd 50 ⟨1, 0, [⟨9, 3, 10⟩], 100⟩).2 = true ∧
    ((pgaudit_write_file_upd 50 ⟨1, 0, [⟨9, 3, 10⟩], 100⟩).1.data.getD 0
      default).ctime =
      -((((⟨1, 0, [⟨9, 3, 10⟩], 100⟩ : WriteState).data.getD 0
        default).ctime.natAbs : Int)) :=
  ⟨(write_rewind_marks_ctime 50 ⟨1, 0, [⟨9, 3, 10⟩], 100⟩ (by decide)
      (by decide)).1,
   (write_rewind_marks_ctime 50 ⟨1, 0, [⟨9, 3, 10⟩], 100⟩ (by decide)
      (by decide)).2.2⟩

/-- Counterexample to C8 as stated: a rewind append onto a slot whose
`ctime` is already negative (a second rewind in the same file).  The claim
says the write path negates the current slot's `ctime`; the code leaves an
already-negative `ctime` unchanged (`-5`, not `5`). -/
theorem write_rewind_counterexample :
    (50 : Int) <
      (⟨1, 0, [⟨-5, 3, 10⟩], 100⟩ : WriteState).last_audit_time ∧
    ((pgaudit_write_file_upd 50 ⟨1, 0, [⟨-5, 3, 10⟩], 100⟩).1.data.getD 0
      default).ctime ≠
      -(((⟨1, 0, [⟨-5, 3, 10⟩], 100⟩ : WriteState).data.getD 0
        default).ctime) := by
  decide

/-- The on-disk audit index table as reloaded by the query/delete entry
points. -/
structure IndexTable where
  maxnum : Nat
  begidx : Nat
  curidx : Nat
  count : Nat
  data : List AuditIndexItem
deriving DecidableEq, Repr

/-- `pgaudit_check_system`: decide from the index alone whether the file at
`index` can intersect `[begtime, endtime)`, using the slot's `ctime` and its
successor's as a bracket; a non-positive `ctime` (wall-clock rewind) makes
the file unconditionally eligible. -/
def pgaudit_check_system (begtime endtime : Int) (tbl : IndexTable)
    (index : Nat) : Bool :=
  let item := tbl.data.getD index default
  if 0 < item.ctime then
    if index = tbl.curidx then
      decide (item.ctime ≤ begtime) || decide (item.ctime ≤ endtime)
    else
      let next := tbl.data.getD ((index + 1) % tbl.maxnum) default
      if 0 < next.ctime then
        decide (max item.ctime begtime ≤ min next.ctime endtime)
      else
        decide (item.ctime ≤ begtime) || decide (item.ctime ≤ endtime)
  else true

/-- The ring walk of `pg_query_audit` from `begidx` to `curidx`, scanning
each eligible file. -/
def queryRing (begtime endtime : Int) (tbl : IndexTable)
    (files : Nat → List AuditRecord) : Nat → Nat → List Row
  | 0, _ => []
  | fuel + 1, index =>
    let item := tbl.data.getD index default
    let rows :=
      if pgaudit_check_system begtime endtime tbl index then
        pgaudit_query_file begtime endtime (files item.filenum)
      else []
    if index = tbl.curidx then rows
    else rows ++ queryRing begtime endtime tbl files fuel ((index + 1) % tbl.maxnum)

/-- `pg_query_audit` (after the authorization and tuplestore plumbing): the
scan runs only when `begtime < endtime` and the reloaded index table has
live slots; otherwise the result set is empty and no file is opened. -/
def pg_query_audit (begtime endtime : Int) (tbl : IndexTable)
    (files : Nat → List AuditRecord) : List Row :=
  if begtime < endtime ∧ 0 < tbl.count then
    queryRing begtime endtime tbl files (tbl.maxnum + 1) tbl.begidx
  else []

/-- The ring walk of `pg_delete_audit`, tombstoning each eligible file. -/
def deleteRing (begtime endtime : Int) (tbl : IndexTable) :
    Nat → Nat → (Nat → List AuditRecord) → (Nat → List AuditRecord)
  | 0, _, files => files
  | fuel + 1, index, files =>
    let item := tbl.data.getD index default
    let files2 :=
      if pgaudit_check_system begtime endtime tbl index then
        fun n => if n = item.filenum then
            pgaudit_delete_file begtime endtime (files n)
          else files n
      else files
    if index = tbl.curidx then files2
    else deleteRing begtime endtime tbl fuel ((index + 1) % tbl.maxnum) files2

/-- `pg_delete_audit` (after the authorization plumbing): the tombstoning
walk runs only when `begtime < endtime` and the index table has live slots;
otherwise every file is left untouched. -/
def pg_delete_audit (begtime endtime : Int) (tbl : IndexTable)
    (files : Nat → List AuditRecord) : Nat → List AuditRecord :=
  if begtime < endtime ∧ 0 < tbl.count then
    deleteRing begtime endtime tbl (tbl.maxnum + 1) tbl.begidx files
  else files

/-- C9: empty-range no-op at the public interface: for `begin ≥ end`,
`pg_query_audit` returns an empty result set without scanning any audit
file, and `pg_delete_audit` leaves every audit file identical (no record is
tombstoned). -/
theorem empty_range_noop (begtime endtime : Int) (tbl : IndexTable)
    (files : Nat → List AuditRecord) (h : endtime ≤ begtime) :
    pg_query_audit begtime endtime tbl files = [] ∧
    pg_delete_audit begtime endtime tbl files = files := by
  have hn : ¬ (begtime < endtime ∧ 0 < tbl.count) := by
    intro hx
    exact absurd hx.1 (not_lt.mpr h)
  constructor
  · unfold pg_query_audit
    rw [if_neg hn]
  · unfold pg_delete_audit
    rw [if_neg hn]

/-- Witness for C9 at the degenerate range `[5, 5)` over a one-slot table. -/
theorem empty_range_noop_witness :
    pg_query_audit 5 5 ⟨1, 0, 0, 1, [⟨1, 0, 0⟩]⟩ (fun _ => []) = [] ∧
    pg_delete_audit 5 5 ⟨1, 0, 0, 1, [⟨1, 0, 0⟩]⟩ (fun _ => []) =
      (fun _ => []) :=
  empty_range_noop 5 5 ⟨1, 0, 0, 1, [⟨1, 0, 0⟩]⟩ (fun _ => []) (le_refl 5)

end PgAudit
